import Mathlib

/-!
# Verification of the cmdux text-layout engine

Shallow embedding of the cmdux terminal-UI toolkit's layout core:
the width model (go-runewidth), the line layout engine
(`Renderer.PadText` / `WrapText` / `TruncateText` / `RepeatChar` in
`core/render.go`), the box composer (`ui/box.go`) and the table
composer (`ui/table.go`).  Strings are modelled as lists of `Char`,
Go `int` parameters as `Int`, and `fatih/color` decorations as
functions `Str → Str` (instantiated with the identity for plain,
escape-free rendering, which is what ANSI-stripped measurement sees).
-/

namespace Cmdux

/-- A Go string, viewed as its sequence of runes. -/
abbrev Str := List Char

/-- The ASCII escape character `\x1b`, the prefix of ANSI sequences. -/
def escChar : Char := Char.ofNat 27

/-- Display width of a single rune.  Models `runewidth.RuneWidth` from
`mattn/go-runewidth` (default, non-East-Asian context): control
characters and combining marks are 0 columns, East-Asian Wide and
Fullwidth ranges are 2 columns, everything else (including ambiguous
characters such as `…`) is 1 column. -/
def runeWidth (c : Char) : Nat :=
  if c.val < 0x20 then 0
  else if c.val = 0x7f then 0
  else if 0x300 ≤ c.val ∧ c.val ≤ 0x36f then 0
  else if (0x1100 ≤ c.val ∧ c.val ≤ 0x115f) ∨
          (0x2e80 ≤ c.val ∧ c.val ≤ 0xa4cf) ∨
          (0xac00 ≤ c.val ∧ c.val ≤ 0xd7a3) ∨
          (0xf900 ≤ c.val ∧ c.val ≤ 0xfaff) ∨
          (0xfe30 ≤ c.val ∧ c.val ≤ 0xfe6f) ∨
          (0xff00 ≤ c.val ∧ c.val ≤ 0xff60) ∨
          (0xffe0 ≤ c.val ∧ c.val ≤ 0xffe6) ∨
          (0x20000 ≤ c.val ∧ c.val ≤ 0x2fffd) ∨
          (0x30000 ≤ c.val ∧ c.val ≤ 0x3fffd) then 2
  else 1

/-- Display width of a string: `runewidth.StringWidth`, the sum of the
rune widths. -/
def strWidth (s : Str) : Nat := (s.map runeWidth).sum

/-- Whether a rune is whitespace for `strings.Fields`
(`unicode.IsSpace` over the characters that matter here). -/
def isSpaceRune (c : Char) : Bool :=
  c = ' ' ∨ c = '\t' ∨ c = '\n' ∨ c = Char.ofNat 11 ∨
  c = Char.ofNat 12 ∨ c = '\r' ∨ c = Char.ofNat 0x85 ∨ c = Char.ofNat 0xa0

/-- Worker for `fields`: walks the string accumulating the current
word (reversed) and emitting completed words at whitespace. -/
def fieldsAux : Str → Str → List Str
  | [], acc => if acc = [] then [] else [acc.reverse]
  | c :: rest, acc =>
    if isSpaceRune c then
      if acc = [] then fieldsAux rest [] else acc.reverse :: fieldsAux rest []
    else fieldsAux rest (c :: acc)

/-- `strings.Fields`: split around runs of whitespace, dropping empties. -/
def fields (s : Str) : List Str := fieldsAux s []

/-- Worker for `splitLines`, accumulating the current line reversed. -/
def splitAux : Str → Str → List Str
  | [], acc => [acc.reverse]
  | c :: rest, acc =>
    if c = '\n' then acc.reverse :: splitAux rest [] else splitAux rest (c :: acc)

/-- `strings.Split(s, "\n")`: split on newlines, keeping empty pieces. -/
def splitLines (s : Str) : List Str := splitAux s []

/-- `strings.Join(lines, "\n")`. -/
def joinLines (ls : List Str) : Str := List.intercalate ['\n'] ls

/-- State machine of `core.StripANSI`: once an `ESC` is seen, runes are
dropped until an ASCII letter terminates the escape sequence. -/
def stripANSIAux : Bool → Str → Str
  | _, [] => []
  | inEscape, c :: rest =>
    if c = escChar then stripANSIAux true rest
    else if inEscape then
      if ('a' ≤ c ∧ c ≤ 'z') ∨ ('A' ≤ c ∧ c ≤ 'Z') then stripANSIAux false rest
      else stripANSIAux true rest
    else c :: stripANSIAux inEscape rest

/-- `core.StripANSI`: remove ANSI escape sequences before measuring. -/
def stripANSI (s : Str) : Str := stripANSIAux false s

/-- `core.MeasureText`: ANSI-stripped display width. -/
def measureText (s : Str) : Nat := strWidth (stripANSI s)

/-- The ellipsis marker `…` used by truncation. -/
def ell : Str := ['…']

/-- Worker for `truncate`: take runes while the accumulated width plus
the next rune still fits the (tail-adjusted) budget. -/
def truncAux (w : Int) (acc : Nat) : Str → Str
  | [] => []
  | c :: rest =>
    if (acc + runeWidth c : Int) > w then []
    else c :: truncAux w (acc + runeWidth c) rest

/-- `runewidth.Truncate(s, w, tail)`: return `s` unchanged when it fits,
otherwise the widest prefix fitting `w - width(tail)` followed by `tail`. -/
def truncate (s : Str) (w : Int) (tail : Str) : Str :=
  if (strWidth s : Int) ≤ w then s
  else truncAux (w - strWidth tail) 0 s ++ tail

/-- `core.Alignment` (`AlignLeft`, `AlignCenter`, `AlignRight`). -/
inductive Alignment | left | center | right
deriving DecidableEq, Repr

/-- `Renderer.PadText`: non-positive widths return the text unchanged;
over-wide text is ellipsis-truncated; otherwise blank columns are
distributed according to the alignment (Go's `switch` default behaves
like `AlignLeft`). -/
def padText (text : Str) (width : Int) (align : Alignment) : Str :=
  if width ≤ 0 then text
  else if (strWidth text : Int) ≥ width then truncate text width ell
  else
    let padding := (width - strWidth text).toNat
    match align with
    | .left => text ++ List.replicate padding ' '
    | .right => List.replicate padding ' ' ++ text
    | .center =>
        List.replicate (padding / 2) ' ' ++ text ++
        List.replicate (padding - padding / 2) ' '

/-- The greedy line-packing loop shared by `Renderer.WrapText` and
`Box.wrapContent`: try to extend the current line with the next word;
on overflow flush the current line (or, when it is empty, emit the
word truncated with an ellipsis). -/
def wrapLoop (width : Int) : List Str → Str → List Str
  | [], cur => if cur = [] then [] else [cur]
  | word :: rest, cur =>
    let test := if cur = [] then word else cur ++ [' '] ++ word
    if (strWidth test : Int) ≤ width then wrapLoop width rest test
    else if cur = [] then truncate word width ell :: wrapLoop width rest []
    else cur :: wrapLoop width rest word

/-- `Renderer.WrapText`: non-positive widths return the whole text as
one line; an input with no words yields one empty line. -/
def wrapText (text : Str) (width : Int) : List Str :=
  if width ≤ 0 then [text]
  else
    match fields text with
    | [] => [[]]
    | ws => wrapLoop width ws []

/-- `Renderer.TruncateText`: non-positive widths yield the empty string. -/
def truncateText (text : Str) (width : Int) : Str :=
  if width ≤ 0 then [] else truncate text width ell

/-- `Renderer.RepeatChar`: tile a rune to fill `width` columns, treating
zero-width runes as width 1. -/
def repeatChar (c : Char) (width : Int) : Str :=
  if width ≤ 0 then []
  else
    let cw := if runeWidth c = 0 then 1 else runeWidth c
    List.replicate (width.toNat / cw) c

/-- A text decoration (`fatih/color`'s `Color.Sprint`), modelled as a
string transformer.  Plain (color-disabled) rendering is the identity. -/
abbrev Paint := Str → Str

/-- The theme roles the box and table composers consult
(`style.Theme.Primary/Secondary/Border/Header`). -/
structure Theme where
  primary : Paint
  secondary : Paint
  border : Paint
  header : Paint

/-- The plain theme: every decoration is the identity, as seen by
ANSI-stripped measurement. -/
def idTheme : Theme := ⟨id, id, id, id⟩

/-! Box-drawing glyphs from `style/symbols.go`. -/

/-- `style.BoxTopLeft`. -/
def boxTopLeft : Str := ['╭']
/-- `style.BoxTopRight`. -/
def boxTopRight : Str := ['╮']
/-- `style.BoxBottomLeft`. -/
def boxBottomLeft : Str := ['╰']
/-- `style.BoxBottomRight`. -/
def boxBottomRight : Str := ['╯']
/-- `style.BoxHorizontal`. -/
def boxHorizontal : Str := ['─']
/-- `style.BoxVertical`. -/
def boxVertical : Str := ['│']
/-- `style.BoxTee`. -/
def boxTee : Str := ['├']
/-- `style.BoxCross`. -/
def boxCross : Str := ['┼']
/-- `style.BoxTeeRight`. -/
def boxTeeRight : Str := ['┤']
/-- `style.BoxTeeTop`. -/
def boxTeeTop : Str := ['┬']
/-- `style.BoxTeeBottom`. -/
def boxTeeBottom : Str := ['┴']

/-- `strings.Repeat(s, n)` for a Go `int` count (`n < 0` panics in Go;
every verified path keeps `n ≥ 0`, where `toNat` is faithful). -/
def repeatStr (s : Str) (n : Int) : Str := (List.replicate n.toNat s).flatten

/-- `ui.Box` plus the `core.Component` fields it embeds.  `width` and
`height` are Go `int`s, `-1` (or any non-positive value) meaning
auto-size; `padding` is a uniform integer ≥ 0 per the data model. -/
structure Box where
  width : Int
  height : Int
  hidden : Bool
  title : Str
  content : Str
  padding : Nat
  border : Bool
  borderStyle : Option Paint
  titleStyle : Option Paint
  contentStyle : Option Paint

/-- `ui.NewBox()` on top of `core.NewComponent()`. -/
def newBox : Box :=
  { width := -1, height := -1, hidden := false, title := [], content := [],
    padding := 1, border := true,
    borderStyle := none, titleStyle := none, contentStyle := none }

/-- `Box.wrapContent`: split the body on newlines, then greedily
word-wrap each piece; empty or all-whitespace pieces yield one empty
line each. -/
def Box.wrapContent (b : Box) (width : Int) : List Str :=
  if width ≤ 0 then [b.content]
  else
    (splitLines b.content).flatMap fun line =>
      if line = [] then [[]]
      else
        match fields line with
        | [] => [[]]
        | ws => wrapLoop width ws []

/-- `Box.calculateWidth`: widest of the title and the newline-split
content lines, plus padding and border. -/
def Box.calculateWidth (b : Box) : Nat :=
  let maxW := (splitLines b.content).foldl (fun m l => max m (strWidth l)) (strWidth b.title)
  maxW + b.padding * 2 + 2

/-- `Box.calculateHeight`: estimates each content line's wrapped line
count by the ceiling division of its width by the interior width. -/
def Box.calculateHeight (b : Box) (width : Nat) : Nat :=
  let cw0 : Int := (width : Int) - (b.padding : Int) * 2 - 2
  let contentWidth : Nat := if cw0 ≤ 0 then 1 else cw0.toNat
  let totalLines :=
    (splitLines b.content).foldl
      (fun t line =>
        if line = [] then t + 1
        else
          let wrapped := (strWidth line + contentWidth - 1) / contentWidth
          t + (if wrapped = 0 then 1 else wrapped))
      0
  totalLines + b.padding * 2 + 2 + (if b.title = [] then 0 else 1)

/-- The ordered lines assembled by `Box.renderWithBorder` (before the
final newline join), assuming `width ≥ 3` and `height ≥ 3`. -/
def Box.borderLines (b : Box) (theme : Theme) (width height : Nat) : List Str :=
  let borderColor := b.borderStyle.getD theme.border
  let titleColor := b.titleStyle.getD theme.header
  let contentColor := b.contentStyle.getD theme.primary
  let top : Str :=
    if b.title = [] then
      borderColor boxTopLeft ++ repeatStr (borderColor boxHorizontal) ((width : Int) - 2) ++
        borderColor boxTopRight
    else
      let availableWidth : Int := (width : Int) - 2
      let maxTitleWidth : Int := availableWidth - 4
      let titleP :=
        if (strWidth b.title : Int) > maxTitleWidth then
          (truncate b.title maxTitleWidth ell, maxTitleWidth)
        else (b.title, (strWidth b.title : Int))
      let totalPadding : Int := availableWidth - titleP.2 - 4
      let leftPadding := totalPadding / 2
      let rightPadding := totalPadding - leftPadding
      borderColor boxTopLeft ++ repeatStr (borderColor boxHorizontal) leftPadding ++
        borderColor ['[', ' '] ++ titleColor titleP.1 ++ borderColor [' ', ']'] ++
        repeatStr (borderColor boxHorizontal) rightPadding ++ borderColor boxTopRight
  let cw0 : Int := (width : Int) - 2 - (b.padding : Int) * 2
  let contentWidth : Nat := if cw0 ≤ 0 then 1 else cw0.toNat
  let contentLines := b.wrapContent (contentWidth : Int)
  let padRow : Str :=
    borderColor boxVertical ++ List.replicate (width - 2) ' ' ++ borderColor boxVertical
  let contentRows :=
    (List.range (height - 2 - b.padding - b.padding)).map fun i =>
      let line := if i < contentLines.length then contentColor (contentLines.getD i []) else []
      let lineWidth := strWidth (stripANSI line)
      let pad : Int := (contentWidth : Int) - (lineWidth : Int)
      let line := if pad > 0 then line ++ List.replicate pad.toNat ' ' else line
      borderColor boxVertical ++ List.replicate b.padding ' ' ++ line ++
        List.replicate b.padding ' ' ++ borderColor boxVertical
  let bottom : Str :=
    borderColor boxBottomLeft ++ repeatStr (borderColor boxHorizontal) ((width : Int) - 2) ++
      borderColor boxBottomRight
  [top] ++ List.replicate b.padding padRow ++ contentRows ++
    List.replicate b.padding padRow ++ [bottom]

/-- `Box.renderWithBorder`: boxes narrower or shorter than 3 degenerate
to the raw content. -/
def Box.renderWithBorder (b : Box) (theme : Theme) (width height : Nat) : Str :=
  if width < 3 ∨ height < 3 then b.content
  else joinLines (b.borderLines theme width height)

/-- `Box.renderWithoutBorder`: optional title line, then each wrapped
content line indented by `padding` spaces. -/
def Box.renderWithoutBorder (b : Box) (theme : Theme) (width : Nat) : Str :=
  let contentColor := b.contentStyle.getD theme.primary
  let titleColor := b.titleStyle.getD theme.header
  let titlePart : List Str := if b.title = [] then [] else [titleColor b.title]
  let cw0 : Int := (width : Int) - (b.padding : Int) * 2
  let contentWidth : Int := if cw0 ≤ 0 then (width : Int) else cw0
  let contentLines := b.wrapContent contentWidth
  joinLines (titlePart ++ contentLines.map fun l => List.replicate b.padding ' ' ++ contentColor l)

/-- `Box.Render`: hidden boxes render as the empty string; otherwise
resolve width and height (explicit when positive, else computed) and
dispatch on the border flag. -/
def Box.render (b : Box) (theme : Theme) : Str :=
  if b.hidden then []
  else
    let width := if b.width ≤ 0 then b.calculateWidth else b.width.toNat
    let height := if b.height ≤ 0 then b.calculateHeight width else b.height.toNat
    if b.border then b.renderWithBorder theme width height
    else b.renderWithoutBorder theme width

/-- `ui.Table` plus its embedded `core.Component` fields.  Column
widths are Go `int`s. -/
structure Table where
  hidden : Bool
  headers : List Str
  rows : List (List Str)
  columnWidths : List Int
  border : Bool
  borderStyle : Option Paint
  headerStyle : Option Paint
  rowStyle : Option Paint
  altRowStyle : Option Paint
  alignment : List Alignment

/-- `ui.NewTable()`. -/
def newTable : Table :=
  { hidden := false, headers := [], rows := [], columnWidths := [], border := true,
    borderStyle := none, headerStyle := none, rowStyle := none, altRowStyle := none,
    alignment := [.left] }

/-- `Table.Headers`: set the headers; seed column widths from the
header label widths when none are set yet, and extend the alignment
list with `AlignLeft` up to the header count. -/
def Table.headersSet (t : Table) (hs : List Str) : Table :=
  let widths := if t.columnWidths = [] then hs.map (fun h => (strWidth h : Int)) else t.columnWidths
  { t with headers := hs, columnWidths := widths,
           alignment := t.alignment ++ List.replicate (hs.length - t.alignment.length) .left }

/-- `Table.updateColumnWidthsForRow`: grow each column width to the
width of that row's cell when the cell is wider; cells beyond the
column count are ignored, columns beyond the row keep their width. -/
def updateColumnWidthsForRow : List Int → List Str → List Int
  | ws, [] => ws
  | [], _ => []
  | w :: ws, cell :: cells =>
    (if (strWidth cell : Int) > w then (strWidth cell : Int) else w) ::
      updateColumnWidthsForRow ws cells

/-- `Table.AddRow`: append the row and grow the column widths. -/
def Table.addRow (t : Table) (row : List Str) : Table :=
  { t with rows := t.rows ++ [row],
           columnWidths := updateColumnWidthsForRow t.columnWidths row }

/-- `Table.ColumnWidths`: set explicit column widths. -/
def Table.columnWidthsSet (t : Table) (ws : List Int) : Table :=
  { t with columnWidths := ws }

/-- `Table.getAlignment`: positional, defaulting to `AlignLeft`. -/
def Table.getAlignment (t : Table) (i : Nat) : Alignment := t.alignment.getD i .left

/-- `Table.renderTopBorder`. -/
def Table.renderTopBorder (t : Table) (borderColor : Paint) : Str :=
  borderColor boxTopLeft ++
    (t.columnWidths.enum.flatMap fun p =>
      (if p.1 > 0 then borderColor boxTeeTop else []) ++
        borderColor (repeatStr boxHorizontal (p.2 + 2))) ++
    borderColor boxTopRight

/-- `Table.renderBottomBorder`. -/
def Table.renderBottomBorder (t : Table) (borderColor : Paint) : Str :=
  borderColor boxBottomLeft ++
    (t.columnWidths.enum.flatMap fun p =>
      (if p.1 > 0 then borderColor boxTeeBottom else []) ++
        borderColor (repeatStr boxHorizontal (p.2 + 2))) ++
    borderColor boxBottomRight

/-- `Table.renderSeparator`. -/
def Table.renderSeparator (t : Table) (borderColor : Paint) : Str :=
  borderColor boxTee ++
    (t.columnWidths.enum.flatMap fun p =>
      (if p.1 > 0 then borderColor boxCross else []) ++
        borderColor (repeatStr boxHorizontal (p.2 + 2))) ++
    borderColor boxTeeRight

/-- `Table.renderRow`: each cell is truncated to its column width when
over-wide, padded per the column alignment, decorated, and flanked by
single spaces and vertical border glyphs. -/
def Table.renderRow (t : Table) (cells : List Str) (cellColor borderColor : Paint)
    (_isHeader : Bool) : Str :=
  borderColor boxVertical ++
    (t.columnWidths.enum.flatMap fun p =>
      let cell := cells.getD p.1 []
      let cell := if (strWidth cell : Int) > p.2 then truncate cell p.2 ell else cell
      let paddedCell := padText cell p.2 (t.getAlignment p.1)
      [' '] ++ cellColor paddedCell ++ [' '] ++ borderColor boxVertical)

/-- `Table.renderRowNoBorder`: space-joined padded cells. -/
def Table.renderRowNoBorder (t : Table) (cells : List Str) (cellColor : Paint) : Str :=
  List.intercalate [' ']
    (t.columnWidths.enum.map fun p =>
      let cell := cells.getD p.1 []
      let cell := if (strWidth cell : Int) > p.2 then truncate cell p.2 ell else cell
      cellColor (padText cell p.2 (t.getAlignment p.1)))

/-- `Table.getTotalWidth`: sum of column widths plus one per
inter-column gap. -/
def Table.getTotalWidth (t : Table) : Int :=
  (t.columnWidths.foldl (· + ·) 0) +
    (if t.columnWidths.length > 1 then (t.columnWidths.length : Int) - 1 else 0)

/-- `Table.Render`: hidden or headerless tables render as the empty
string; otherwise emit border/header/separator/data/bottom (or the
borderless variant with a dashed rule). -/
def Table.render (t : Table) (theme : Theme) : Str :=
  if t.hidden ∨ t.headers = [] then []
  else
    let borderColor := t.borderStyle.getD theme.border
    let headerColor := t.headerStyle.getD theme.header
    let rowColor := t.rowStyle.getD theme.primary
    let altRowColor := t.altRowStyle.getD theme.secondary
    if t.border then
      joinLines
        ([t.renderTopBorder borderColor,
          t.renderRow t.headers headerColor borderColor true,
          t.renderSeparator borderColor] ++
         (t.rows.enum.map fun p =>
            t.renderRow p.2 (if p.1 % 2 = 0 then rowColor else altRowColor) borderColor false) ++
         [t.renderBottomBorder borderColor])
    else
      joinLines
        ([t.renderRowNoBorder t.headers headerColor,
          List.replicate t.getTotalWidth.toNat '-'] ++
         (t.rows.enum.map fun p =>
            t.renderRowNoBorder p.2 (if p.1 % 2 = 0 then rowColor else altRowColor)))

/-- A box with the given title, content and padding and everything else
as `NewBox` leaves it: auto width and height, border on, visible, no
style overrides. -/
def boxWith (title content : Str) (p : Nat) : Box :=
  { newBox with title := title, content := content, padding := p }

/-- Closed-form restatement of `Box.calculateHeight`: per pre-split
content line, the ceiling division of its width by the interior width
(at least 1), summed, plus padding, border, and title allowance. -/
def Box.specEstHeight (b : Box) (width : Nat) : Nat :=
  let cw0 : Int := (width : Int) - (b.padding : Int) * 2 - 2
  let contentWidth : Nat := if cw0 ≤ 0 then 1 else cw0.toNat
  ((splitLines b.content).map fun line =>
      if line = [] then 1 else max 1 ((strWidth line + contentWidth - 1) / contentWidth)).sum +
    b.padding * 2 + 2 + (if b.title = [] then 0 else 1)

/-- Modelled from the spec (claim C4's reading of resolved height): the
count of actually word-wrapped content lines, wrapped to
`width - 2*padding - 2`, plus `2*padding + 2`, plus 1 when a title is
present.  Stated here only to compare against `Box.calculateHeight`. -/
def Box.claimedWrapHeight (b : Box) (width : Nat) : Nat :=
  (b.wrapContent ((width : Int) - (b.padding : Int) * 2 - 2)).length +
    b.padding * 2 + 2 + (if b.title = [] then 0 else 1)

/-- The widest of the title and the newline-split content lines — the
quantity `Box.calculateWidth` adds padding and border to. -/
def maxLineWidth (title content : Str) : Nat :=
  (splitLines content).foldl (fun m l => max m (strWidth l)) (strWidth title)

/-! ## Basic width and escape-stripping lemmas -/

lemma strWidth_cons (c : Char) (s : Str) : strWidth (c :: s) = runeWidth c + strWidth s := by
  simp [strWidth]

lemma strWidth_append (a b : Str) : strWidth (a ++ b) = strWidth a + strWidth b := by
  simp [strWidth]

lemma strWidth_reverse (s : Str) : strWidth s.reverse = strWidth s := by
  simp [strWidth, List.sum_reverse]

lemma runeWidth_space : runeWidth ' ' = 1 := by decide

lemma strWidth_replicate_space (n : Nat) : strWidth (List.replicate n ' ') = n := by
  simp [strWidth, List.map_replicate, runeWidth_space]

lemma stripANSIAux_width_le (s : Str) : ∀ b : Bool, strWidth (stripANSIAux b s) ≤ strWidth s := by
  induction s with
  | nil => intro b; simp [stripANSIAux]
  | cons c rest ih =>
    intro b
    simp only [stripANSIAux]
    split_ifs with h1 h2 h3
    · have := ih true; rw [strWidth_cons]; omega
    · have := ih false; rw [strWidth_cons]; omega
    · have := ih true; rw [strWidth_cons]; omega
    · have hb : b = false := by revert h2; cases b <;> simp
      subst hb
      have := ih false
      rw [strWidth_cons, strWidth_cons]
      omega

lemma measureText_le_strWidth (s : Str) : measureText s ≤ strWidth s :=
  stripANSIAux_width_le s false

lemma stripANSIAux_of_not_esc (s : Str) (h : escChar ∉ s) : stripANSIAux false s = s := by
  induction s with
  | nil => rfl
  | cons c rest ih =>
    have hc : c ≠ escChar := fun hx => h (hx ▸ List.mem_cons_self c rest)
    have hrest : escChar ∉ rest := fun hx => h (List.mem_cons_of_mem c hx)
    simp only [stripANSIAux, if_neg hc, Bool.false_eq_true, if_false]
    rw [ih hrest]

lemma measureText_of_not_esc (s : Str) (h : escChar ∉ s) : measureText s = strWidth s := by
  unfold measureText stripANSI
  rw [stripANSIAux_of_not_esc s h]

/-! ## Truncation lemmas -/

lemma truncAux_le (s : Str) (w : Int) :
    ∀ acc : Nat, (acc : Int) ≤ w → (acc : Int) + strWidth (truncAux w acc s) ≤ w := by
  induction s with
  | nil => intro acc h; simpa [truncAux] using h
  | cons c rest ih =>
    intro acc h
    simp only [truncAux]
    split
    · simpa using h
    · rename_i hfit
      push_neg at hfit
      have := ih (acc + runeWidth c) (by exact_mod_cast hfit)
      rw [strWidth_cons]
      push_cast at this ⊢
      omega

lemma truncate_of_le (s : Str) (w : Int) (tail : Str) (h : (strWidth s : Int) ≤ w) :
    truncate s w tail = s := by
  unfold truncate
  rw [if_pos h]

lemma strWidth_ell : strWidth ell = 1 := by decide

lemma strWidth_truncate_le (s : Str) (w : Int) (hw : 1 ≤ w) :
    (strWidth (truncate s w ell) : Int) ≤ w := by
  unfold truncate
  split
  · assumption
  · rw [strWidth_append, strWidth_ell]
    have := truncAux_le s (w - strWidth ell) 0 (by rw [strWidth_ell]; omega)
    rw [strWidth_ell] at this
    push_cast at this ⊢
    omega

lemma mem_truncAux (s : Str) (w : Int) :
    ∀ (acc : Nat) (x : Char), x ∈ truncAux w acc s → x ∈ s := by
  induction s with
  | nil => intro acc x hx; simp [truncAux] at hx
  | cons c rest ih =>
    intro acc x hx
    simp only [truncAux] at hx
    split at hx
    · simp at hx
    · rcases List.mem_cons.mp hx with h | h
      · exact h ▸ List.mem_cons_self c rest
      · exact List.mem_cons_of_mem c (ih _ x h)

lemma mem_truncate (s : Str) (w : Int) (x : Char) (hx : x ∈ truncate s w ell) :
    x ∈ s ∨ x = '…' := by
  unfold truncate at hx
  split at hx
  · exact Or.inl hx
  · rcases List.mem_append.mp hx with h | h
    · exact Or.inl (mem_truncAux s _ 0 x h)
    · right; simpa [ell] using h

/-! ## Fields and line-splitting lemmas -/

lemma fieldsAux_ne_nil (s : Str) :
    ∀ (acc : Str) (word : Str), word ∈ fieldsAux s acc → word ≠ [] := by
  induction s with
  | nil =>
    intro acc word hw
    simp only [fieldsAux] at hw
    split at hw
    · simp at hw
    · rename_i hacc
      rw [List.mem_singleton] at hw
      subst hw
      simpa using hacc
  | cons c rest ih =>
    intro acc word hw
    simp only [fieldsAux] at hw
    split at hw
    · split at hw
      · exact ih [] word hw
      · rename_i hacc
        rcases List.mem_cons.mp hw with h | h
        · subst h; simpa using hacc
        · exact ih [] word h
    · exact ih (c :: acc) word hw

lemma fieldsAux_width_le (s : Str) :
    ∀ (acc : Str) (word : Str), word ∈ fieldsAux s acc →
      strWidth word ≤ strWidth s + strWidth acc := by
  induction s with
  | nil =>
    intro acc word hw
    simp only [fieldsAux] at hw
    split at hw
    · simp at hw
    · rw [List.mem_singleton] at hw
      subst hw
      simp [strWidth_reverse]
  | cons c rest ih =>
    intro acc word hw
    simp only [fieldsAux] at hw
    split at hw
    · split at hw
      · have := ih [] word hw
        rw [strWidth_cons]
        simp only [strWidth, List.map_nil, List.sum_nil] at this ⊢
        omega
      · rcases List.mem_cons.mp hw with h | h
        · subst h
          rw [strWidth_reverse, strWidth_cons]
          omega
        · have := ih [] word h
          rw [strWidth_cons]
          simp only [strWidth, List.map_nil, List.sum_nil] at this ⊢
          omega
    · have := ih (c :: acc) word hw
      rw [strWidth_cons] at this
      rw [strWidth_cons]
      omega

lemma fields_width_le (s : Str) (word : Str) (hw : word ∈ fields s) :
    strWidth word ≤ strWidth s := by
  have := fieldsAux_width_le s [] word hw
  simpa [strWidth] using this

lemma fieldsAux_mem_subset (s : Str) :
    ∀ (acc : Str) (word : Str) (x : Char), word ∈ fieldsAux s acc → x ∈ word →
      x ∈ s ∨ x ∈ acc := by
  induction s with
  | nil =>
    intro acc word x hw hx
    simp only [fieldsAux] at hw
    split at hw
    · simp at hw
    · rw [List.mem_singleton] at hw
      subst hw
      exact Or.inr (List.mem_reverse.mp hx)
  | cons c rest ih =>
    intro acc word x hw hx
    simp only [fieldsAux] at hw
    split at hw
    · split at hw
      · rcases ih [] word x hw hx with h | h
        · exact Or.inl (List.mem_cons_of_mem c h)
        · simp at h
      · rcases List.mem_cons.mp hw with h | h
        · subst h
          exact Or.inr (List.mem_reverse.mp hx)
        · rcases ih [] word x h hx with h2 | h2
          · exact Or.inl (List.mem_cons_of_mem c h2)
          · simp at h2
    · rcases ih (c :: acc) word x hw hx with h | h
      · exact Or.inl (List.mem_cons_of_mem c h)
      · rcases List.mem_cons.mp h with h2 | h2
        · exact Or.inl (h2 ▸ List.mem_cons_self c rest)
        · exact Or.inr h2

lemma fields_mem_subset (s : Str) (word : Str) (x : Char)
    (hw : word ∈ fields s) (hx : x ∈ word) : x ∈ s := by
  rcases fieldsAux_mem_subset s [] word x hw hx with h | h
  · exact h
  · simp at h

lemma splitAux_mem_subset (s : Str) :
    ∀ (acc : Str) (l : Str) (x : Char), l ∈ splitAux s acc → x ∈ l → x ∈ s ∨ x ∈ acc := by
  induction s with
  | nil =>
    intro acc l x hl hx
    simp only [splitAux, List.mem_singleton] at hl
    subst hl
    exact Or.inr (List.mem_reverse.mp hx)
  | cons c rest ih =>
    intro acc l x hl hx
    simp only [splitAux] at hl
    split at hl
    · rcases List.mem_cons.mp hl with h | h
      · subst h
        exact Or.inr (List.mem_reverse.mp hx)
      · rcases ih [] l x h hx with h2 | h2
        · exact Or.inl (List.mem_cons_of_mem c h2)
        · simp at h2
    · rcases ih (c :: acc) l x hl hx with h | h
      · exact Or.inl (List.mem_cons_of_mem c h)
      · rcases List.mem_cons.mp h with h2 | h2
        · exact Or.inl (h2 ▸ List.mem_cons_self c rest)
        · exact Or.inr h2

lemma splitLines_mem_subset (s : Str) (l : Str) (x : Char)
    (hl : l ∈ splitLines s) (hx : x ∈ l) : x ∈ s := by
  rcases splitAux_mem_subset s [] l x hl hx with h | h
  · exact h
  · simp at h

lemma splitAux_no_newline (s : Str) :
    ∀ acc : Str, '\n' ∉ acc → ∀ l ∈ splitAux s acc, '\n' ∉ l := by
  induction s with
  | nil =>
    intro acc hacc l hl
    simp only [splitAux, List.mem_singleton] at hl
    subst hl
    simpa [List.mem_reverse] using hacc
  | cons c rest ih =>
    intro acc hacc l hl
    simp only [splitAux] at hl
    split at hl
    · rcases List.mem_cons.mp hl with h | h
      · subst h
        simpa [List.mem_reverse] using hacc
      · exact ih [] (by simp) l h
    · rename_i hc
      refine ih (c :: acc) ?_ l hl
      intro hmem
      rcases List.mem_cons.mp hmem with h | h
      · exact hc h.symm
      · exact hacc h

lemma splitLines_no_newline (s : Str) (l : Str) (hl : l ∈ splitLines s) : '\n' ∉ l :=
  splitAux_no_newline s [] (by simp) l hl

lemma splitAux_of_no_newline (l : Str) (h : '\n' ∉ l) :
    ∀ acc : Str, splitAux l acc = [acc.reverse ++ l] := by
  induction l with
  | nil => intro acc; simp [splitAux]
  | cons c rest ih =>
    intro acc
    have hc : c ≠ '\n' := fun hx => h (hx ▸ List.mem_cons_self c rest)
    have hrest : '\n' ∉ rest := fun hx => h (List.mem_cons_of_mem c hx)
    simp only [splitAux, if_neg hc]
    rw [ih hrest (c :: acc)]
    simp

lemma splitAux_append_newline (l : Str) (h : '\n' ∉ l) (rest : Str) :
    ∀ acc : Str, splitAux (l ++ '\n' :: rest) acc = (acc.reverse ++ l) :: splitAux rest [] := by
  induction l with
  | nil =>
    intro acc
    simp [splitAux]
  | cons c tl ih =>
    intro acc
    have hc : c ≠ '\n' := fun hx => h (hx ▸ List.mem_cons_self c tl)
    have htl : '\n' ∉ tl := fun hx => h (List.mem_cons_of_mem c hx)
    simp only [List.cons_append, splitAux, if_neg hc, List.append_eq]
    rw [ih htl (c :: acc)]
    simp

lemma intercalate_cons_cons (sep x y : Str) (l : List Str) :
    List.intercalate sep (x :: y :: l) = x ++ sep ++ List.intercalate sep (y :: l) := by
  simp [List.intercalate, List.intersperse]

lemma intercalate_single (sep x : Str) : List.intercalate sep [x] = x := by
  simp [List.intercalate]

lemma splitLines_joinLines (ls : List Str) (h : ls ≠ [])
    (hnl : ∀ l ∈ ls, '\n' ∉ l) : splitLines (joinLines ls) = ls := by
  induction ls with
  | nil => exact absurd rfl h
  | cons x tl ih =>
    cases tl with
    | nil =>
      unfold splitLines joinLines
      rw [intercalate_single]
      rw [splitAux_of_no_newline x (hnl x (List.mem_cons_self x [])) []]
      simp
    | cons y tl2 =>
      unfold splitLines joinLines
      rw [intercalate_cons_cons]
      have hx : '\n' ∉ x := hnl x (List.mem_cons_self _ _)
      have : x ++ ['\n'] ++ List.intercalate ['\n'] (y :: tl2) =
          x ++ '\n' :: List.intercalate ['\n'] (y :: tl2) := by simp
      rw [this, splitAux_append_newline x hx _ []]
      have ihr := ih (by simp) (fun l hl => hnl l (List.mem_cons_of_mem x hl))
      unfold splitLines joinLines at ihr
      rw [ihr]
      simp

/-! ## Wrap-loop lemmas -/

lemma wrapLoop_lines_le (w : Int) :
    ∀ (ws : List Str) (cur : Str), (strWidth cur : Int) ≤ w →
      (∀ word ∈ ws, (strWidth word : Int) ≤ w) →
      ∀ l ∈ wrapLoop w ws cur, (strWidth l : Int) ≤ w := by
  intro ws
  induction ws with
  | nil =>
    intro cur hcur _ l hl
    simp only [wrapLoop] at hl
    split at hl
    · simp at hl
    · rw [List.mem_singleton] at hl
      exact hl ▸ hcur
  | cons word rest ih =>
    intro cur hcur hws l hl
    have hword : (strWidth word : Int) ≤ w := hws word (List.mem_cons_self _ _)
    have hrest : ∀ x ∈ rest, (strWidth x : Int) ≤ w :=
      fun x hx => hws x (List.mem_cons_of_mem _ hx)
    by_cases hc0 : cur = []
    · subst hc0
      have hl2 : l ∈ (if (strWidth word : Int) ≤ w then wrapLoop w rest word
          else truncate word w ell :: wrapLoop w rest []) := hl
      rw [if_pos hword] at hl2
      exact ih word hword hrest l hl2
    · simp only [wrapLoop, if_neg hc0] at hl
      split at hl
      · rename_i hfit
        exact ih _ hfit hrest l hl
      · rcases List.mem_cons.mp hl with h | h
        · exact h ▸ hcur
        · exact ih word hword hrest l h

lemma wrapLoop_not_mem (w : Int) (x : Char) (hx1 : x ≠ ' ') (hx2 : x ≠ '…') :
    ∀ (ws : List Str) (cur : Str), x ∉ cur → (∀ word ∈ ws, x ∉ word) →
      ∀ l ∈ wrapLoop w ws cur, x ∉ l := by
  intro ws
  induction ws with
  | nil =>
    intro cur hcur _ l hl
    simp only [wrapLoop] at hl
    split at hl
    · simp at hl
    · rw [List.mem_singleton] at hl
      exact hl ▸ hcur
  | cons word rest ih =>
    intro cur hcur hws l hl
    have hword : x ∉ word := hws word (List.mem_cons_self _ _)
    have hrest : ∀ y ∈ rest, x ∉ y := fun y hy => hws y (List.mem_cons_of_mem _ hy)
    by_cases hc0 : cur = []
    · subst hc0
      have hl2 : l ∈ (if (strWidth word : Int) ≤ w then wrapLoop w rest word
          else truncate word w ell :: wrapLoop w rest []) := hl
      clear hl
      rename' hl2 => hl
      split at hl
      · exact ih word hword hrest l hl
      · rcases List.mem_cons.mp hl with h | h
        · subst h
          intro hmem
          rcases mem_truncate word w x hmem with h2 | h2
          · exact hword h2
          · exact hx2 h2
        · exact ih [] (by simp) hrest l h
    · simp only [wrapLoop, if_neg hc0] at hl
      split at hl
      · refine ih _ ?_ hrest l hl
        intro hmem
        rcases List.mem_append.mp hmem with h | h
        · rcases List.mem_append.mp h with h2 | h2
          · exact hcur h2
          · exact hx1 (by simpa using h2)
        · exact hword h
      · rcases List.mem_cons.mp hl with h | h
        · exact h ▸ hcur
        · exact ih word hword hrest l h

lemma strWidth_intercalate_head (x : Str) (l : List Str) :
    strWidth x ≤ strWidth (List.intercalate [' '] (x :: l)) := by
  cases l with
  | nil => rw [intercalate_single]
  | cons y tl =>
    rw [intercalate_cons_cons, strWidth_append, strWidth_append]
    omega

lemma wrapLoop_packs (w : Int) :
    ∀ (ws : List Str) (cur : Str), cur ≠ [] →
      (strWidth (List.intercalate [' '] (cur :: ws)) : Int) ≤ w →
      wrapLoop w ws cur = [List.intercalate [' '] (cur :: ws)] := by
  intro ws
  induction ws with
  | nil =>
    intro cur hcur hw
    rw [intercalate_single]
    simp [wrapLoop, hcur]
  | cons word rest ih =>
    intro cur hcur hw
    rw [intercalate_cons_cons] at hw
    have hjoin : List.intercalate [' '] ((cur ++ [' '] ++ word) :: rest) =
        cur ++ [' '] ++ List.intercalate [' '] (word :: rest) := by
      cases rest with
      | nil => rw [intercalate_single, intercalate_single]
      | cons z tl =>
        rw [intercalate_cons_cons, intercalate_cons_cons]
        simp [List.append_assoc]
    have htestw : (strWidth (cur ++ [' '] ++ word) : Int) ≤ w := by
      have h1 := strWidth_intercalate_head word rest
      rw [strWidth_append] at hw ⊢
      push_cast at hw ⊢
      omega
    simp only [wrapLoop, if_neg hcur]
    rw [if_pos htestw]
    have hne : cur ++ [' '] ++ word ≠ [] := by simp
    have := ih (cur ++ [' '] ++ word) hne (by rw [hjoin]; exact hw)
    rw [this, hjoin, intercalate_cons_cons]

/-! ## Table column-width lemmas -/

lemma updateColumnWidths_getD (ws : List Int) :
    ∀ (cells : List Str) (i : Nat),
      (updateColumnWidthsForRow ws cells).getD i 0 =
        if i < ws.length ∧ i < cells.length then
          max (ws.getD i 0) ((strWidth (cells.getD i [])) : Int)
        else ws.getD i 0 := by
  induction ws with
  | nil =>
    intro cells i
    cases cells <;> simp [updateColumnWidthsForRow]
  | cons w tl ih =>
    intro cells i
    cases cells with
    | nil => simp [updateColumnWidthsForRow]
    | cons cell cs =>
      cases i with
      | zero =>
        simp only [updateColumnWidthsForRow, List.getD_cons_zero]
        have : (if (strWidth cell : Int) > w then (strWidth cell : Int) else w) =
            max w (strWidth cell : Int) := by
          rcases le_or_lt (strWidth cell : Int) w with h | h
          · rw [if_neg (not_lt.mpr h), max_eq_left h]
          · rw [if_pos h, max_eq_right (le_of_lt h)]
        simp [this]
      | succ j =>
        simp only [updateColumnWidthsForRow, List.getD_cons_succ]
        rw [ih cs j]
        have hiff : (j < tl.length ∧ j < cs.length) ↔
            (j + 1 < tl.length + 1 ∧ j + 1 < cs.length + 1) := by omega
        rw [if_congr hiff rfl rfl]
        simp only [List.length_cons]


lemma foldl_add_map {α : Type} (g : α → Nat) :
    ∀ (L : List α) (n : Nat), L.foldl (fun t l => t + g l) n = n + (L.map g).sum := by
  intro L
  induction L with
  | nil => intro n; simp
  | cons x tl ih =>
    intro n
    simp only [List.foldl_cons, List.map_cons, List.sum_cons]
    rw [ih (n + g x)]
    omega

lemma if_eq_zero_one (n : Nat) : (if n = 0 then 1 else n) = max 1 n := by
  split
  · simp_all
  · omega

lemma esc_not_mem_replicate_space (n : Nat) : escChar ∉ (List.replicate n ' ' : Str) := by
  intro hmem
  have := List.eq_of_mem_replicate hmem
  exact absurd this (by decide)

/-! ## Claim theorems -/

/-- C9: for every string, character, alignment and width `w ≤ 0`,
`PadText` returns the text unchanged, `WrapText` returns the one-element
sequence holding the text, and `RepeatChar` returns the empty string. -/
theorem degenerate_width_policy (s : Str) (c : Char) (align : Alignment) (w : Int)
    (h : w ≤ 0) :
    padText s w align = s ∧ wrapText s w = [s] ∧ repeatChar c w = [] := by
  refine ⟨?_, ?_, ?_⟩
  · unfold padText; rw [if_pos h]
  · unfold wrapText; rw [if_pos h]
  · unfold repeatChar; rw [if_pos h]

/-- Witness for C9 at `s = "hi"`, `c = 'x'`, `align = Center`, `w = -3`. -/
theorem degenerate_width_policy_witness :
    padText "hi".data (-3) .center = "hi".data ∧
    wrapText "hi".data (-3) = ["hi".data] ∧ repeatChar 'x' (-3) = [] :=
  degenerate_width_policy "hi".data 'x' .center (-3) (by decide)

/-- C8: adding a row via `Table.AddRow` never decreases any existing
column width: each column's stored width is monotone under
`updateColumnWidthsForRow`. -/
theorem addRow_never_shrinks_column (t : Table) (row : List Str) (i : Nat) :
    t.columnWidths.getD i 0 ≤ ((t.addRow row).columnWidths).getD i 0 := by
  show t.columnWidths.getD i 0 ≤ (updateColumnWidthsForRow t.columnWidths row).getD i 0
  rw [updateColumnWidths_getD]
  split
  · exact le_max_left _ _
  · exact le_refl _

/-- C3 counterexample: explicit widths set by `Table.ColumnWidths` before
any row is added do NOT freeze the widths — adding a row with a wider
cell grows the column from the supplied 2 to the cell width 4. -/
theorem explicit_widths_overridden_cex :
    (((newTable.headersSet [['h']]).columnWidthsSet [2]).addRow
        [['w', 'i', 'd', 'e']]).columnWidths ≠ [2] := by decide

/-- C3 (amended): explicit column widths replace the stored widths but do
not disable auto-growth — a subsequently added row grows column `i` to
the maximum of the supplied width and the cell's width; only columns
without a (wider) cell keep the supplied value. -/
theorem explicit_widths_still_grow (t : Table) (ws : List Int) (row : List Str) (i : Nat) :
    ((t.columnWidthsSet ws).addRow row).columnWidths.getD i 0 =
      if i < ws.length ∧ i < row.length then
        max (ws.getD i 0) ((strWidth (row.getD i [])) : Int)
      else ws.getD i 0 := by
  show (updateColumnWidthsForRow ws row).getD i 0 = _
  exact updateColumnWidths_getD ws row i

/-- C10: a hidden box renders as the empty string, and a hidden or
headerless table renders as the empty string, for every theme. -/
theorem hidden_components_render_empty (b : Box) (t : Table) (theme : Theme) :
    (b.hidden = true → b.render theme = []) ∧
    ((t.hidden = true ∨ t.headers = []) → t.render theme = []) := by
  constructor
  · intro h
    unfold Box.render
    rw [if_pos h]
  · intro h
    unfold Table.render
    rw [if_pos h]

/-- Witness for C10: a hidden box, a hidden table, and a headerless
table all render empty under the plain theme. -/
theorem hidden_components_render_empty_witness :
    ({newBox with hidden := true} : Box).render idTheme = [] ∧
    ({newTable with hidden := true} : Table).render idTheme = [] ∧
    newTable.render idTheme = [] :=
  ⟨(hidden_components_render_empty {newBox with hidden := true}
      {newTable with hidden := true} idTheme).1 rfl,
   (hidden_components_render_empty {newBox with hidden := true}
      {newTable with hidden := true} idTheme).2 (Or.inl rfl),
   (hidden_components_render_empty {newBox with hidden := true} newTable idTheme).2
      (Or.inr rfl)⟩

/-- C7 counterexample: `TruncateText("a", 0)` returns the empty string,
which differs from the input yet does not end with the ellipsis marker —
the marker IS silently dropped for budgets below one glyph. -/
theorem truncateText_marker_dropped_cex :
    ¬ (truncateText ['a'] 0 ≠ ['a'] → (truncateText ['a'] 0).getLast? = some '…') := by
  decide

/-- C7 (amended): for budgets `w ≥ 1` (the width of the marker),
`TruncateText` yields measured width at most `w`, and whenever the
result differs from the input it ends with the ellipsis marker.  For
`w ≤ 0` the result is the empty string and the marker is dropped. -/
theorem truncateText_budget_and_marker (s : Str) (w : Int) (hw : 1 ≤ w) :
    (measureText (truncateText s w) : Int) ≤ w ∧
    (truncateText s w ≠ s → (truncateText s w).getLast? = some '…') := by
  have hnot : ¬ w ≤ 0 := by omega
  constructor
  · have h1 : (strWidth (truncateText s w) : Int) ≤ w := by
      unfold truncateText
      rw [if_neg hnot]
      exact strWidth_truncate_le s w hw
    have h2 := measureText_le_strWidth (truncateText s w)
    have h3 : ((measureText (truncateText s w) : Int)) ≤
        (strWidth (truncateText s w) : Int) := by exact_mod_cast h2
    omega
  · intro hne
    unfold truncateText at hne ⊢
    rw [if_neg hnot] at hne ⊢
    by_cases hle : (strWidth s : Int) ≤ w
    · rw [truncate_of_le s w ell hle] at hne
      exact absurd rfl hne
    · unfold truncate
      rw [if_neg hle]
      have hellv : ell = ['…'] := rfl
      rw [hellv]
      exact List.getLast?_concat _

/-- Witness for C7 at `s = "abc"`, `w = 2`. -/
theorem truncateText_budget_and_marker_witness :
    (measureText (truncateText "abc".data 2) : Int) ≤ 2 ∧
    (truncateText "abc".data 2 ≠ "abc".data →
      (truncateText "abc".data 2).getLast? = some '…') :=
  truncateText_budget_and_marker "abc".data 2 (by decide)

/-- C5 counterexample: the double-spaced string has measured width 4 and
budget 4, yet wrapping collapses the whitespace, so the result is not
the one-element sequence holding the input unchanged. -/
theorem wrap_idempotent_cex :
    (measureText "a  b".data : Int) ≤ 4 ∧ wrapText "a  b".data 4 ≠ ["a  b".data] := by
  decide

/-- C5 (amended): wrapping is idempotent on already-short text that is
whitespace-normalized — whenever `s` equals the single-space join of its
own fields and its raw width is at most `w`, `WrapText` returns `[s]`. -/
theorem wrap_idempotent_normalized (s : Str) (w : Int)
    (hnorm : s = List.intercalate [' '] (fields s))
    (hw : (strWidth s : Int) ≤ w) :
    wrapText s w = [s] := by
  by_cases h0 : w ≤ 0
  · unfold wrapText
    rw [if_pos h0]
  · unfold wrapText
    rw [if_neg h0]
    cases hfs : fields s with
    | nil =>
      have hs : s = [] := by
        rw [hnorm, hfs]
        simp [List.intercalate]
      rw [hs]
    | cons w1 ws =>
      have hint : List.intercalate [' '] (w1 :: ws) = s := by
        conv_rhs => rw [hnorm, hfs]
      have hw1ne : w1 ≠ [] :=
        fieldsAux_ne_nil s [] w1
          (by rw [show fieldsAux s [] = fields s from rfl, hfs]
              exact List.mem_cons_self _ _)
      have hw1w : (strWidth w1 : Int) ≤ w := by
        have h1 := strWidth_intercalate_head w1 ws
        rw [hint] at h1
        have h2 : (strWidth w1 : Int) ≤ (strWidth s : Int) := by exact_mod_cast h1
        omega
      show wrapLoop w (w1 :: ws) [] = [s]
      have hstep : wrapLoop w (w1 :: ws) [] =
          (if (strWidth w1 : Int) ≤ w then wrapLoop w ws w1
           else truncate w1 w ell :: wrapLoop w ws []) := rfl
      rw [hstep, if_pos hw1w]
      rw [wrapLoop_packs w ws w1 hw1ne (by rw [hint]; exact hw), hint]

/-- Witness for C5 at `s = "a b"`, `w = 3`. -/
theorem wrap_idempotent_normalized_witness :
    wrapText "a b".data 3 = ["a b".data] :=
  wrap_idempotent_normalized "a b".data 3 (by decide) (by decide)

/-- C2 counterexample: with budget 3, the over-wide word `bbbb` arrives
while the current line `aa` is non-empty, so it is emitted untruncated
as a line of measured width 4 > 3 — not as a truncated ellipsis line. -/
theorem wrap_overwide_untruncated_cex :
    wrapText "aa bbbb".data 3 = ["aa".data, "bbbb".data] ∧
    (measureText "bbbb".data : Int) > 3 := by decide

/-- C2 (amended): an over-wide word is emitted alone as a truncated
ellipsis line (of measured width at most the budget) only when the line
under construction is empty when the word is considered — e.g. when it
is the first word; an over-wide word that follows a non-empty current
line is emitted untruncated. -/
theorem wrap_overwide_first_word_truncated (text : Str) (w : Int) (word : Str)
    (rest : List Str) (hw : 1 ≤ w) (hf : fields text = word :: rest)
    (hover : (strWidth word : Int) > w) :
    wrapText text w = truncate word w ell :: wrapLoop w rest [] ∧
    (measureText (truncate word w ell) : Int) ≤ w := by
  constructor
  · unfold wrapText
    rw [if_neg (by omega), hf]
    show wrapLoop w (word :: rest) [] = _
    have hstep : wrapLoop w (word :: rest) [] =
        (if (strWidth word : Int) ≤ w then wrapLoop w rest word
         else truncate word w ell :: wrapLoop w rest []) := rfl
    rw [hstep, if_neg (by omega)]
  · have h1 := strWidth_truncate_le word w hw
    have h2 := measureText_le_strWidth (truncate word w ell)
    have h3 : ((measureText (truncate word w ell) : Int)) ≤
        (strWidth (truncate word w ell) : Int) := by exact_mod_cast h2
    omega

/-- Witness for C2 at `text = "aaaa"`, `w = 2` (single over-wide word). -/
theorem wrap_overwide_first_word_truncated_witness :
    wrapText "aaaa".data 2 = truncate "aaaa".data 2 ell :: wrapLoop 2 [] [] ∧
    (measureText (truncate "aaaa".data 2 ell) : Int) ≤ 2 :=
  wrap_overwide_first_word_truncated "aaaa".data 2 "aaaa".data [] (by decide) (by decide)
    (by decide)

/-- C6 counterexample: for the ANSI sequence string `ESC [ m`, the
measured width is 0 ≤ 1, yet `PadText` (which compares raw, unstripped
widths) truncates instead of padding and returns a string of measured
width 0, not 1. -/
theorem padText_measured_width_cex :
    (measureText [Char.ofNat 27, '[', 'm'] : Int) ≤ 1 ∧
    measureText (padText [Char.ofNat 27, '[', 'm'] 1 .left) ≠ 1 := by decide

/-- C6 (amended): for escape-free strings (on which measured and raw
width coincide) and `w ≥ measure(s)`, `PadText` returns a string of
measured width exactly `w`, with the blank columns all trailing for
Left, all leading for Right, and split with the smaller half leading
for Center (the odd leftover column goes to the right side). -/
theorem padText_exact_width (s : Str) (w : Int) (align : Alignment)
    (hesc : escChar ∉ s) (hw : (measureText s : Int) ≤ w) :
    measureText (padText s w align) = w.toNat ∧
    padText s w align =
      (match align with
       | .left => s ++ List.replicate (w - strWidth s).toNat ' '
       | .right => List.replicate (w - strWidth s).toNat ' ' ++ s
       | .center =>
           List.replicate ((w - strWidth s).toNat / 2) ' ' ++ s ++
             List.replicate ((w - strWidth s).toNat - (w - strWidth s).toNat / 2) ' ') := by
  have hms : measureText s = strWidth s := measureText_of_not_esc s hesc
  have hw' : (strWidth s : Int) ≤ w := by rw [hms] at hw; exact hw
  have hpad : padText s w align =
      (match align with
       | .left => s ++ List.replicate (w - strWidth s).toNat ' '
       | .right => List.replicate (w - strWidth s).toNat ' ' ++ s
       | .center =>
           List.replicate ((w - strWidth s).toNat / 2) ' ' ++ s ++
             List.replicate ((w - strWidth s).toNat - (w - strWidth s).toNat / 2) ' ') := by
    unfold padText
    by_cases h0 : w ≤ 0
    · rw [if_pos h0]
      have hk0 : (w - strWidth s).toNat = 0 := by omega
      rw [hk0]
      cases align <;> simp
    · rw [if_neg h0]
      by_cases hge : (strWidth s : Int) ≥ w
      · have hk0 : (w - strWidth s).toNat = 0 := by omega
        rw [if_pos hge, truncate_of_le s w ell hw', hk0]
        cases align <;> simp
      · rw [if_neg hge]
  refine ⟨?_, hpad⟩
  rw [hpad]
  have happ : ∀ a b : Str, escChar ∉ a → escChar ∉ b → escChar ∉ a ++ b := by
    intro a b ha hb hmem
    rcases List.mem_append.mp hmem with h | h
    · exact ha h
    · exact hb h
  cases align
  · rw [measureText_of_not_esc _ (happ _ _ hesc (esc_not_mem_replicate_space _)),
      strWidth_append, strWidth_replicate_space]
    omega
  · rw [measureText_of_not_esc _
      (happ _ _ (happ _ _ (esc_not_mem_replicate_space _) hesc)
        (esc_not_mem_replicate_space _)),
      strWidth_append, strWidth_append, strWidth_replicate_space, strWidth_replicate_space]
    omega
  · rw [measureText_of_not_esc _ (happ _ _ (esc_not_mem_replicate_space _) hesc),
      strWidth_append, strWidth_replicate_space]
    omega

/-- Witness for C6 at `s = "ab"`, `w = 5`, `align = Center`. -/
theorem padText_exact_width_witness :
    measureText (padText "ab".data 5 .center) = (5 : Int).toNat ∧
    padText "ab".data 5 .center =
      List.replicate (((5 : Int) - strWidth "ab".data).toNat / 2) ' ' ++ "ab".data ++
        List.replicate
          (((5 : Int) - strWidth "ab".data).toNat -
            ((5 : Int) - strWidth "ab".data).toNat / 2) ' ' :=
  padText_exact_width "ab".data 5 .center (by decide) (by decide)

/-- C4 counterexample: for an untitled box with content `"a "` (a word
plus a trailing space), padding 1 and resolved width 5, the code
resolves height 6 via the ceiling estimate, while the count of actually
word-wrapped content lines per the claim gives height 5. -/
theorem height_estimate_cex :
    Box.calculateHeight (boxWith [] ['a', ' '] 1) 5 = 6 ∧
    Box.claimedWrapHeight (boxWith [] ['a', ' '] 1) 5 = 5 := by decide

/-- C4 (amended): the auto-resolved height is the sum, over the
newline-split content lines, of the ceiling division of each line's raw
width by the interior width (counting at least 1 per line, and 1 for an
empty line), plus `2*padding + 2` for border and padding, plus 1 when a
title is present — an estimate, not the actual word-wrap line count. -/
theorem calculateHeight_is_ceiling_estimate (b : Box) (width : Nat) :
    b.calculateHeight width = b.specEstHeight width := by
  have hfun : ∀ (cw : Nat) (L : List Str) (n : Nat),
      L.foldl (fun t line =>
        if line = [] then t + 1
        else t + (if (strWidth line + cw - 1) / cw = 0 then 1
                  else (strWidth line + cw - 1) / cw)) n =
      n + (L.map fun line =>
        if line = [] then 1 else max 1 ((strWidth line + cw - 1) / cw)).sum := by
    intro cw L
    induction L with
    | nil => intro n; simp
    | cons x tl ih =>
      intro n
      simp only [List.foldl_cons, List.map_cons, List.sum_cons]
      rw [ih]
      by_cases hx : x = []
      · rw [if_pos hx, if_pos hx]
        omega
      · rw [if_neg hx, if_neg hx]
        generalize (strWidth x + cw - 1) / cw = q
        by_cases hq : q = 0
        · have hmax : max 1 q = 1 := by rw [hq]; rfl
          rw [if_pos hq, hmax]
          omega
        · rw [if_neg hq, Nat.max_eq_right (by omega : 1 ≤ q)]
          omega
  simp only [Box.calculateHeight, Box.specEstHeight]
  rw [hfun]
  omega

/-! ## Lemmas for the box width invariant -/

lemma not_mem_app {x : Char} {a b : Str} (ha : x ∉ a) (hb : x ∉ b) : x ∉ a ++ b := by
  intro h
  rcases List.mem_append.mp h with h | h
  · exact ha h
  · exact hb h

lemma not_mem_replicate_char {x c : Char} (n : Nat) (h : x ≠ c) :
    x ∉ List.replicate n c := by
  intro hmem
  exact h (List.eq_of_mem_replicate hmem)

lemma not_mem_repeatStr {x : Char} (s : Str) (n : Int) (h : x ∉ s) : x ∉ repeatStr s n := by
  intro hmem
  unfold repeatStr at hmem
  rw [List.mem_flatten] at hmem
  obtain ⟨t, ht, hx⟩ := hmem
  rw [List.eq_of_mem_replicate ht] at hx
  exact h hx

lemma strWidth_flatten (ls : List Str) : strWidth ls.flatten = (ls.map strWidth).sum := by
  induction ls with
  | nil => rfl
  | cons x tl ih => simp [List.flatten_cons, strWidth_append, ih]

lemma strWidth_repeatStr (s : Str) (n : Int) :
    strWidth (repeatStr s n) = n.toNat * strWidth s := by
  unfold repeatStr
  rw [strWidth_flatten]
  simp [List.map_replicate]

lemma foldl_max_init_le (L : List Str) :
    ∀ a : Nat, a ≤ L.foldl (fun m l => max m (strWidth l)) a := by
  induction L with
  | nil => intro a; simp
  | cons x tl ih =>
    intro a
    simp only [List.foldl_cons]
    exact le_trans (le_max_left a _) (ih _)

lemma foldl_max_mem_le (L : List Str) :
    ∀ (a : Nat) (l : Str), l ∈ L →
      strWidth l ≤ L.foldl (fun m l => max m (strWidth l)) a := by
  induction L with
  | nil => intro a l hl; simp at hl
  | cons x tl ih =>
    intro a l hl
    rcases List.mem_cons.mp hl with h | h
    · subst h
      simp only [List.foldl_cons]
      exact le_trans (le_max_right a _) (foldl_max_init_le tl _)
    · simp only [List.foldl_cons]
      exact ih _ l h

lemma wrapContent_line_le (b : Box) (W : Nat) (h1 : 1 ≤ W)
    (hb : ∀ sl ∈ splitLines b.content, strWidth sl ≤ W) :
    ∀ l ∈ b.wrapContent (W : Int), strWidth l ≤ W := by
  intro l hl
  unfold Box.wrapContent at hl
  rw [if_neg (by omega : ¬ (W : Int) ≤ 0)] at hl
  rw [List.mem_flatMap] at hl
  obtain ⟨sl, hsl, hmem⟩ := hl
  by_cases hempty : sl = []
  · rw [if_pos hempty] at hmem
    rw [List.mem_singleton] at hmem
    subst hmem
    exact Nat.zero_le _
  · rw [if_neg hempty] at hmem
    cases hfs : fields sl with
    | nil =>
      rw [hfs] at hmem
      have hmem2 : l ∈ ([[]] : List Str) := hmem
      rw [List.mem_singleton] at hmem2
      subst hmem2
      exact Nat.zero_le _
    | cons w1 ws =>
      rw [hfs] at hmem
      have hmem2 : l ∈ wrapLoop (W : Int) (w1 :: ws) [] := hmem
      have hwords : ∀ word ∈ w1 :: ws, (strWidth word : Int) ≤ (W : Int) := by
        intro word hword
        have h2 : strWidth word ≤ strWidth sl := fields_width_le sl word (by rw [hfs]; exact hword)
        have h3 := hb sl hsl
        omega
      have := wrapLoop_lines_le (W : Int) (w1 :: ws) [] (by simp [strWidth]) hwords l hmem2
      exact_mod_cast this

lemma wrapContent_not_mem (b : Box) (W : Int) (hW : ¬ W ≤ 0) (x : Char)
    (hx1 : x ≠ ' ') (hx2 : x ≠ '…')
    (hsl : ∀ sl ∈ splitLines b.content, x ∉ sl) :
    ∀ l ∈ b.wrapContent W, x ∉ l := by
  intro l hl
  unfold Box.wrapContent at hl
  rw [if_neg hW] at hl
  rw [List.mem_flatMap] at hl
  obtain ⟨sl, hslm, hmem⟩ := hl
  by_cases hempty : sl = []
  · rw [if_pos hempty] at hmem
    rw [List.mem_singleton] at hmem
    subst hmem
    simp
  · rw [if_neg hempty] at hmem
    cases hfs : fields sl with
    | nil =>
      rw [hfs] at hmem
      have hmem2 : l ∈ ([[]] : List Str) := hmem
      rw [List.mem_singleton] at hmem2
      subst hmem2
      simp
    | cons w1 ws =>
      rw [hfs] at hmem
      have hmem2 : l ∈ wrapLoop W (w1 :: ws) [] := hmem
      refine wrapLoop_not_mem W x hx1 hx2 (w1 :: ws) [] (by simp) ?_ l hmem2
      intro word hword
      intro hxw
      exact hsl sl hslm (fields_mem_subset sl word x (by rw [hfs]; exact hword) hxw)


lemma borderLines_measure (title content : Str) (p height : Nat) (hp : 2 ≤ p)
    (hesc_t : escChar ∉ title) (hnl_t : '\n' ∉ title) (hesc_c : escChar ∉ content)
    (hmax : 1 ≤ maxLineWidth title content) :
    ∀ l ∈ (boxWith title content p).borderLines idTheme
        (maxLineWidth title content + p * 2 + 2) height,
      strWidth l = maxLineWidth title content + p * 2 + 2 ∧ escChar ∉ l ∧ '\n' ∉ l := by
  intro l hl
  unfold Box.borderLines at hl
  simp only [show (boxWith title content p).borderStyle = none from rfl,
    show (boxWith title content p).titleStyle = none from rfl,
    show (boxWith title content p).contentStyle = none from rfl,
    show (boxWith title content p).title = title from rfl,
    show (boxWith title content p).padding = p from rfl,
    Option.getD_none,
    show idTheme.border = (id : Paint) from rfl,
    show idTheme.header = (id : Paint) from rfl,
    show idTheme.primary = (id : Paint) from rfl,
    id_eq] at hl
  simp only [List.mem_append, List.mem_singleton, List.mem_replicate, List.mem_map,
    List.mem_range] at hl
  set mW := maxLineWidth title content with hmWdef
  have hvert : strWidth boxVertical = 1 := by decide
  have htw : strWidth title ≤ mW := by
    rw [hmWdef]
    unfold maxLineWidth
    exact foldl_max_init_le _ _
  have hpadRow : strWidth (boxVertical ++ List.replicate (mW + p * 2 + 2 - 2) ' ' ++ boxVertical) =
      mW + p * 2 + 2 ∧
      escChar ∉ (boxVertical ++ List.replicate (mW + p * 2 + 2 - 2) ' ' ++ boxVertical) ∧
      '\n' ∉ (boxVertical ++ List.replicate (mW + p * 2 + 2 - 2) ' ' ++ boxVertical) := by
    refine ⟨?_, ?_, ?_⟩
    · rw [strWidth_append, strWidth_append, strWidth_replicate_space, hvert]
      omega
    · exact not_mem_app (not_mem_app (by decide) (not_mem_replicate_char _ (by decide)))
        (by decide)
    · exact not_mem_app (not_mem_app (by decide) (not_mem_replicate_char _ (by decide)))
        (by decide)
  rcases hl with ((((htop | hpad1) | hcr) | hpad2) | hbot)
  · -- top border
    subst htop
    by_cases ht : title = []
    · rw [if_pos ht]
      refine ⟨?_, ?_, ?_⟩
      · rw [strWidth_append, strWidth_append, strWidth_repeatStr]
        have h1 : strWidth boxTopLeft = 1 := by decide
        have h2 : strWidth boxHorizontal = 1 := by decide
        have h3 : strWidth boxTopRight = 1 := by decide
        rw [h1, h2, h3]
        omega
      · exact not_mem_app (not_mem_app (by decide) (not_mem_repeatStr _ _ (by decide)))
          (by decide)
      · exact not_mem_app (not_mem_app (by decide) (not_mem_repeatStr _ _ (by decide)))
          (by decide)
    · rw [if_neg ht]
      have hgt : ¬ ((strWidth title : Int) > ((mW + p * 2 + 2 : Nat) : Int) - 2 - 4) := by
        push_cast
        omega
      rw [if_neg hgt]
      rw [show ((title, ((strWidth title : Int))) : Str × Int).1 = title from rfl,
        show ((title, ((strWidth title : Int))) : Str × Int).2 = (strWidth title : Int) from rfl]
      refine ⟨?_, ?_, ?_⟩
      · rw [strWidth_append, strWidth_append, strWidth_append, strWidth_append,
          strWidth_append, strWidth_append, strWidth_repeatStr, strWidth_repeatStr]
        have h1 : strWidth boxTopLeft = 1 := by decide
        have h2 : strWidth boxHorizontal = 1 := by decide
        have h3 : strWidth boxTopRight = 1 := by decide
        have h4 : strWidth ['[', ' '] = 2 := by decide
        have h5 : strWidth [' ', ']'] = 2 := by decide
        rw [h1, h2, h3, h4, h5]
        push_cast
        omega
      · exact not_mem_app (not_mem_app (not_mem_app (not_mem_app (not_mem_app
          (not_mem_app (by decide) (not_mem_repeatStr _ _ (by decide))) (by decide))
          hesc_t) (by decide)) (not_mem_repeatStr _ _ (by decide))) (by decide)
      · exact not_mem_app (not_mem_app (not_mem_app (not_mem_app (not_mem_app
          (not_mem_app (by decide) (not_mem_repeatStr _ _ (by decide))) (by decide))
          hnl_t) (by decide)) (not_mem_repeatStr _ _ (by decide))) (by decide)
  · -- top padding rows
    exact hpad1.2 ▸ hpadRow
  · -- content rows
    obtain ⟨i, hi, hbody⟩ := hcr
    subst hbody
    have hcw0 : (if ((mW + p * 2 + 2 : Nat) : Int) - 2 - (p : Int) * 2 ≤ 0 then 1
        else (((mW + p * 2 + 2 : Nat) : Int) - 2 - (p : Int) * 2).toNat) = mW := by
      rw [if_neg (by push_cast; omega)]
      push_cast
      omega
    rw [hcw0]
    set CL := (boxWith title content p).wrapContent ((mW : Nat) : Int) with hCLdef
    have hCLle : ∀ l' ∈ CL, strWidth l' ≤ mW := by
      apply wrapContent_line_le _ mW hmax
      intro sl hsl
      have h2 := foldl_max_mem_le (splitLines content) (strWidth title) sl hsl
      rw [hmWdef]
      unfold maxLineWidth
      exact h2
    have hCLesc : ∀ l' ∈ CL, escChar ∉ l' :=
      wrapContent_not_mem _ _ (by omega) escChar (by decide) (by decide)
        (fun sl hsl hx => hesc_c (splitLines_mem_subset content sl escChar hsl hx))
    have hCLnl : ∀ l' ∈ CL, '\n' ∉ l' :=
      wrapContent_not_mem _ _ (by omega) '\n' (by decide) (by decide)
        (fun sl hsl => splitLines_no_newline content sl hsl)
    set LINE := (if i < CL.length then CL.getD i [] else []) with hLINEdef
    have hLprops : strWidth LINE ≤ mW ∧ escChar ∉ LINE ∧ '\n' ∉ LINE := by
      rw [hLINEdef]
      split
      · rename_i hilt
        have hmem : CL.getD i [] ∈ CL := by
          rw [List.getD_eq_getElem CL [] hilt]
          exact List.getElem_mem hilt
        exact ⟨hCLle _ hmem, hCLesc _ hmem, hCLnl _ hmem⟩
      · refine ⟨by simp [strWidth], by simp, by simp⟩
    obtain ⟨hLle, hLesc, hLnl⟩ := hLprops
    have hstrip : stripANSI LINE = LINE := stripANSIAux_of_not_esc LINE hLesc
    rw [hstrip]
    by_cases hpad : ((mW : Int) - (strWidth LINE : Int) > 0)
    · rw [if_pos hpad]
      refine ⟨?_, ?_, ?_⟩
      · rw [strWidth_append, strWidth_append, strWidth_append, strWidth_append,
          strWidth_append, strWidth_replicate_space, strWidth_replicate_space, hvert]
        omega
      · exact not_mem_app (not_mem_app (not_mem_app (not_mem_app (by decide)
          (not_mem_replicate_char _ (by decide)))
          (not_mem_app hLesc (not_mem_replicate_char _ (by decide))))
          (not_mem_replicate_char _ (by decide))) (by decide)
      · exact not_mem_app (not_mem_app (not_mem_app (not_mem_app (by decide)
          (not_mem_replicate_char _ (by decide)))
          (not_mem_app hLnl (not_mem_replicate_char _ (by decide))))
          (not_mem_replicate_char _ (by decide))) (by decide)
    · rw [if_neg hpad]
      have hLeq : strWidth LINE = mW := by omega
      refine ⟨?_, ?_, ?_⟩
      · rw [strWidth_append, strWidth_append, strWidth_append, strWidth_append,
          strWidth_replicate_space, hvert, hLeq]
        omega
      · exact not_mem_app (not_mem_app (not_mem_app (not_mem_app (by decide)
          (not_mem_replicate_char _ (by decide))) hLesc)
          (not_mem_replicate_char _ (by decide))) (by decide)
      · exact not_mem_app (not_mem_app (not_mem_app (not_mem_app (by decide)
          (not_mem_replicate_char _ (by decide))) hLnl)
          (not_mem_replicate_char _ (by decide))) (by decide)
  · -- bottom padding rows
    exact hpad2.2 ▸ hpadRow
  · -- bottom border
    subst hbot
    refine ⟨?_, ?_, ?_⟩
    · rw [strWidth_append, strWidth_append, strWidth_repeatStr]
      have h1 : strWidth boxBottomLeft = 1 := by decide
      have h2 : strWidth boxHorizontal = 1 := by decide
      have h3 : strWidth boxBottomRight = 1 := by decide
      rw [h1, h2, h3]
      omega
    · exact not_mem_app (not_mem_app (by decide) (not_mem_repeatStr _ _ (by decide)))
        (by decide)
    · exact not_mem_app (not_mem_app (by decide) (not_mem_repeatStr _ _ (by decide)))
        (by decide)


/-- C1 counterexample: a box with the wide-character title `你好`,
explicit width 8 and height 3 renders a title border line of measured
width 7 (the truncated title `…` is narrower than the width the code
assumes), so not every output line has the resolved width 8. -/
theorem box_width_invariant_cex :
    ¬ (∀ l ∈ splitLines (({boxWith ['你', '好'] [] 1 with width := 8, height := 3}).render
        idTheme), measureText l = 8) := by decide

/-- C1 (amended): for plain inputs (escape-free title and content, no
newline in the title, identity decoration), padding at least 2 (so the
bracketed title always fits untruncated), a nonzero widest line, and
auto-resolved width and height, every line of the bordered `Box.Render`
output has ANSI-stripped measured width equal to the resolved width. -/
theorem box_render_width_invariant (title content : Str) (p : Nat) (hp : 2 ≤ p)
    (hesc_t : escChar ∉ title) (hnl_t : '\n' ∉ title) (hesc_c : escChar ∉ content)
    (hmax : 1 ≤ maxLineWidth title content) :
    ∀ l ∈ splitLines ((boxWith title content p).render idTheme),
      measureText l = (boxWith title content p).calculateWidth := by
  have hcw : (boxWith title content p).calculateWidth = maxLineWidth title content + p * 2 + 2 :=
    rfl
  have hrender : (boxWith title content p).render idTheme =
      (boxWith title content p).renderWithBorder idTheme
        ((boxWith title content p).calculateWidth)
        ((boxWith title content p).calculateHeight ((boxWith title content p).calculateWidth)) :=
    rfl
  rw [hrender]
  unfold Box.renderWithBorder
  have hH3 : ¬ ((boxWith title content p).calculateHeight
      ((boxWith title content p).calculateWidth) < 3) := by
    simp only [Box.calculateHeight, show (boxWith title content p).padding = p from rfl]
    omega
  have hW3 : ¬ ((boxWith title content p).calculateWidth < 3) := by
    rw [hcw]
    omega
  rw [if_neg (not_or.mpr ⟨hW3, hH3⟩), hcw]
  have hprops := borderLines_measure title content p
    ((boxWith title content p).calculateHeight (maxLineWidth title content + p * 2 + 2))
    hp hesc_t hnl_t hesc_c hmax
  have hne : (boxWith title content p).borderLines idTheme
      (maxLineWidth title content + p * 2 + 2)
      ((boxWith title content p).calculateHeight
        (maxLineWidth title content + p * 2 + 2)) ≠ [] := by
    unfold Box.borderLines
    simp
  rw [splitLines_joinLines _ hne (fun l hl => (hprops l hl).2.2)]
  intro l hl
  obtain ⟨hw, hesc, -⟩ := hprops l hl
  rw [measureText_of_not_esc l hesc]
  exact hw


/-- Witness for C1 at title `"hi"`, content `"ok"`, padding 2, checked
on the title border line of the rendered output. -/
theorem box_render_width_invariant_witness :
    measureText ['╭', '[', ' ', 'h', 'i', ' ', ']', '╮'] =
      (boxWith ['h', 'i'] ['o', 'k'] 2).calculateWidth :=
  box_render_width_invariant ['h', 'i'] ['o', 'k'] 2 (by decide) (by decide) (by decide)
    (by decide) (by decide) ['╭', '[', ' ', 'h', 'i', ' ', ']', '╮'] (by decide)

end Cmdux
